/-
Verification of the bookmark-tree editing and outline-serialization core of
the Bookmark-PDF application.

Backend (`sortBookmarksByPage`, `buildPrintedOutline`, the `/api/process`
normalization) and frontend store (`createNode`, `findAndOperate`,
`saveModal`, `removeNode`, outline import) are embedded as pure Lean
functions.  JavaScript numeric coercions (`Number(x)`, `parseInt(x, 10)`)
are modelled exactly on the value forms a bookmark `page` field can take
(numbers idealized as exact rationals; non-finite results such as
`Infinity` are outside the model and render as "not a number").
-/
import Mathlib

set_option maxHeartbeats 1000000

namespace BookmarkPdf

/-! ## JavaScript value / coercion model for the `page` field -/

/-- The JavaScript values a bookmark's `page` field can hold in the model:
absent (`undefined`), `null`, the number `NaN`, a finite number that is an
integer, or an arbitrary string.  (Fractional number literals reach the
serializer only as strings in this model.) -/
inductive JsPage
  | undef
  | null
  | nan
  | num (n : Int)
  | str (s : String)
deriving DecidableEq, Repr

/-- Numeric value of a run of decimal digit characters. -/
def digitsToNat (ds : List Char) : Nat :=
  ds.foldl (fun a c => 10 * a + (c.toNat - 48)) 0

/-- `parseInt(s, 10)`: skip leading whitespace, read one optional sign,
then the longest run of decimal digits; no digits means `NaN` (`none`). -/
def jsParseInt (s : String) : Option Int :=
  let cs := s.data.dropWhile Char.isWhitespace
  let core : List Char → Option Int := fun t =>
    let ds := t.takeWhile Char.isDigit
    if ds.isEmpty then none else some (digitsToNat ds : Int)
  match cs with
  | '-' :: rest => (core rest).map Neg.neg
  | '+' :: rest => core rest
  | rest => core rest

/-- Digit value of a character in a given radix, `none` when out of range. -/
def radixDigit (radix : Nat) (c : Char) : Option Nat :=
  let v :=
    if c.isDigit then some (c.toNat - 48)
    else if 'a' ≤ c ∧ c ≤ 'f' then some (c.toNat - 97 + 10)
    else if 'A' ≤ c ∧ c ≤ 'F' then some (c.toNat - 65 + 10)
    else none
  match v with
  | some d => if d < radix then some d else none
  | none => none

/-- Whole-string radix parse (used for `0x`/`0o`/`0b` numeric literals). -/
def parseRadix (radix : Nat) (cs : List Char) : Option Nat :=
  if cs.isEmpty then none
  else
    cs.foldl
      (fun acc c =>
        match acc, radixDigit radix c with
        | some a, some d => some (radix * a + d)
        | _, _ => none)
      (some 0)

/-- Exponent suffix of a decimal literal: empty means exponent `0`;
otherwise `e`/`E`, an optional sign, and a non-empty all-digit tail. -/
def parseExpSuffix : List Char → Option Int
  | [] => some 0
  | e :: rest =>
    if e = 'e' ∨ e = 'E' then
      match rest with
      | '+' :: ds =>
        if ds.isEmpty ∨ ¬ ds.all Char.isDigit then none
        else some (digitsToNat ds : Int)
      | '-' :: ds =>
        if ds.isEmpty ∨ ¬ ds.all Char.isDigit then none
        else some (-(digitsToNat ds : Int))
      | ds =>
        if ds.isEmpty ∨ ¬ ds.all Char.isDigit then none
        else some (digitsToNat ds : Int)
    else none

/-- An unsigned decimal literal (integer part, optional fraction, optional
exponent), consuming the whole character list; `none` means `NaN`. -/
def parseUnsignedDec (cs : List Char) : Option ℚ :=
  let intPart := cs.takeWhile Char.isDigit
  let rest1 := cs.dropWhile Char.isDigit
  match rest1 with
  | '.' :: rest2 =>
    let fracPart := rest2.takeWhile Char.isDigit
    let rest3 := rest2.dropWhile Char.isDigit
    if intPart.isEmpty ∧ fracPart.isEmpty then none
    else
      (parseExpSuffix rest3).map fun e =>
        ((digitsToNat intPart : ℚ) +
            (digitsToNat fracPart : ℚ) / (10 : ℚ) ^ fracPart.length) *
          (10 : ℚ) ^ e
  | _ =>
    if intPart.isEmpty then none
    else (parseExpSuffix rest1).map fun e => (digitsToNat intPart : ℚ) * (10 : ℚ) ^ e

/-- `Number(s)` on a string: trim whitespace, empty means `0`, otherwise the
whole remainder must be a numeric literal (signed decimal, or unsigned
`0x`/`0X` hex, `0o`/`0O` octal, `0b`/`0B` binary); anything else is `NaN`
(`none`).  Non-finite literals (`Infinity`) are outside the model. -/
def jsStringToNumber (s : String) : Option ℚ :=
  let cs := ((s.data.dropWhile Char.isWhitespace).reverse.dropWhile
    Char.isWhitespace).reverse
  match cs with
  | [] => some 0
  | '0' :: c :: rest =>
    if c = 'x' ∨ c = 'X' then (parseRadix 16 rest).map fun n => (n : ℚ)
    else if c = 'o' ∨ c = 'O' then (parseRadix 8 rest).map fun n => (n : ℚ)
    else if c = 'b' ∨ c = 'B' then (parseRadix 2 rest).map fun n => (n : ℚ)
    else parseUnsignedDec cs
  | '+' :: rest => parseUnsignedDec rest
  | '-' :: rest => (parseUnsignedDec rest).map Neg.neg
  | _ => parseUnsignedDec cs

/-- `Number(page)` for a page field; `none` means `NaN`. -/
def jsToNumber : JsPage → Option ℚ
  | .undef => none
  | .null => some 0
  | .nan => none
  | .num n => some (n : ℚ)
  | .str s => jsStringToNumber s

/-- `parseInt(page, 10)` for a page field: `parseInt` first converts its
argument to a string (`undefined` ↦ "undefined", `null` ↦ "null",
`NaN` ↦ "NaN", none of which starts with a digit), so only strings and
integer numbers (whose decimal rendering parses back to themselves, valid
for every magnitude below `1e21`) can produce a number. -/
def jsParseIntPage : JsPage → Option Int
  | .undef => none
  | .null => none
  | .nan => none
  | .num n => some n
  | .str s => jsParseInt s

/-- Sort key used by `sortBookmarksByPage`: `Number(a.page) || 0`, i.e. `0`
when the coercion yields `NaN` (and `0` is of course kept at `0`). -/
def sortKey (p : JsPage) : ℚ :=
  match jsToNumber p with
  | none => 0
  | some q => q

/-- Page emitted by `buildPrintedOutline`: `parseInt(b.page, 10) || 1`,
i.e. `1` when the parse yields `NaN` and also when it yields `0` (falsy). -/
def emitPage (p : JsPage) : Int :=
  match jsParseIntPage p with
  | none => 1
  | some n => if n = 0 then 1 else n

/-! ## Backend bookmark trees and the outline serializer -/

/-- A bookmark object as received by the backend from the JSON payload.
An absent `title` behaves exactly like `""` (the source reads
`b.title || ''`), and absent / non-array `children` behave exactly like
`[]` (the source guards every access with `Array.isArray`), so both are
normalized in the model. -/
structure Bookmark where
  title : String
  page : JsPage
  children : List Bookmark
deriving Repr

theorem sizeOf_bookmark_children_lt (b : Bookmark) :
    sizeOf b.children < sizeOf b := by
  cases b with
  | mk t p c => simp only [Bookmark.mk.sizeOf_spec]; omega

/-- Boolean sibling comparison used for sorting:
`(Number(a.page) || 0) - (Number(b.page) || 0)` orders by the keys. -/
def sortLE (a b : Bookmark) : Bool :=
  sortKey a.page ≤ sortKey b.page

/-- `sortBookmarksByPage`: stably sort the siblings by their page key, then
rebuild each node with recursively sorted children (the source copies with
`slice()` and object spread, so this is a pure function of the input). -/
def sortBookmarksByPage (nodes : List Bookmark) : List Bookmark :=
  (nodes.mergeSort sortLE).attach.map
    (fun x => Bookmark.mk x.1.title x.1.page (sortBookmarksByPage x.1.children))
termination_by sizeOf nodes
decreasing_by
  have h1 : x.1 ∈ nodes := List.mem_mergeSort.mp x.2
  have h2 := List.sizeOf_lt_of_mem h1
  have h3 := sizeOf_bookmark_children_lt x.1
  omega

/-- `title.replace(/\n/g, ' ')`: the pattern and replacement are single
characters, so the global replace is exactly a character map. -/
def replaceNewlines (s : String) : String :=
  String.mk (s.data.map fun c => if c = '\n' then ' ' else c)

/-- JS `String.prototype.trim()`: strip whitespace from both ends. -/
def jsTrim (s : String) : String :=
  String.mk
    (((s.data.dropWhile Char.isWhitespace).reverse.dropWhile
      Char.isWhitespace).reverse)

/-- `'-'.repeat(depth)`. -/
def depthMarkers (depth : Nat) : String :=
  String.mk (List.replicate depth '-')

/-- The single output line for one bookmark at a given depth:
`` `${page}|${depthMarkers}|${title}` `` with newlines in the title
replaced by spaces. -/
def bookmarkLine (b : Bookmark) (depth : Nat) : String :=
  toString (emitPage b.page) ++ "|" ++ depthMarkers depth ++ "|" ++
    replaceNewlines b.title

/-- `Array.prototype.join('\n')`. -/
def joinLines : List String → String
  | [] => ""
  | [l] => l
  | l :: l2 :: ls => l ++ "\n" ++ joinLines (l2 :: ls)

/-- The `lines` accumulator of `buildPrintedOutline`: for each bookmark push
its line, then (when it has children) recurse one level deeper into the
same accumulator. -/
def buildLines : List Bookmark → Nat → List String → List String
  | [], _, lines => lines
  | b :: rest, depth, lines =>
    let lines1 := lines ++ [bookmarkLine b depth]
    let lines2 :=
      if b.children.length > 0 then buildLines b.children (depth + 1) lines1
      else lines1
    buildLines rest depth lines2
termination_by bs => sizeOf bs
decreasing_by
  · have := sizeOf_bookmark_children_lt b
    simp only [List.cons.sizeOf_spec]; omega
  · simp only [List.cons.sizeOf_spec]; omega

/-- `buildPrintedOutline(bookmarks, depth = 0, lines = [])`. -/
def buildPrintedOutline (bookmarks : List Bookmark) (depth : Nat := 0) : String :=
  joinLines (buildLines bookmarks depth [])

/-- The serialization step of the `/api/process` route:
`Array.isArray(bookmarks) ? sortBookmarksByPage(bookmarks) : []`, then
`normalized.length > 0 ? buildPrintedOutline(normalized) : ''`. -/
def processPrintedOutline (bookmarks : Option (List Bookmark)) : String :=
  let normalized :=
    match bookmarks with
    | some bs => sortBookmarksByPage bs
    | none => []
  if normalized.length > 0 then buildPrintedOutline normalized else ""

/-! ## Frontend bookmark tree store -/

/-- A frontend tree node: `createNode` always produces
`{ id, title, page: Number(page), children: [] }` and every call site
passes an already-parsed integer page, so `page` is an integer.  The
opaque uuid is modelled as a natural number. -/
structure FNode where
  id : Nat
  title : String
  page : Int
  children : List FNode

theorem sizeOf_fnode_children_lt (n : FNode) :
    sizeOf n.children < sizeOf n := by
  cases n with
  | mk i t p c => simp only [FNode.mk.sizeOf_spec]; omega

/-- Toast severity: `showToast(message, type = 'info')`; validation
failures pass `'error'`. -/
inductive ToastKind
  | info
  | error
deriving DecidableEq, Repr

/-- A toast reported to the user. -/
structure Toast where
  message : String
  kind : ToastKind
deriving DecidableEq, Repr

/-- `createNode(title, page)`, with the generated uuid made explicit. -/
def createNode (title : String) (page : Int) (freshId : Nat) : FNode :=
  ⟨freshId, title, page, []⟩

/-- `findAndOperate(nodes, id, op)`: depth-first pre-order search for the
first node whose `id` matches; `op` receives the containing array and the
index and either mutates the node in place or splices it out, modelled by
`op : FNode → Option FNode` (`some` = replacement, `none` = removal).
`none` overall means the JS function returned `false` (no match). -/
def findAndOperate (op : FNode → Option FNode) (id : Nat) :
    List FNode → Option (List FNode)
  | [] => none
  | n :: rest =>
    if n.id = id then
      match op n with
      | some n2 => some (n2 :: rest)
      | none => some rest
    else
      match findAndOperate op id n.children with
      | some cs => some ({ n with children := cs } :: rest)
      | none =>
        match findAndOperate op id rest with
        | some rest2 => some (n :: rest2)
        | none => none
termination_by nodes => sizeOf nodes
decreasing_by
  · have := sizeOf_fnode_children_lt n
    simp only [List.cons.sizeOf_spec]; omega
  · simp only [List.cons.sizeOf_spec]; omega

/-- Which editing modal is open. -/
inductive ModalMode
  | addRoot
  | addChild
  | edit
deriving DecidableEq, Repr

/-- The slice of component state that `saveModal` reads.  `numPages` is
`null` until the document loads; `null` and `0` behave identically in the
guard `numPages ? page > numPages : false` (both falsy), so `null` is
modelled as `0`. -/
structure EditorState where
  tree : List FNode
  numPages : Int
  modalMode : ModalMode
  modalParentId : Option Nat
  editingId : Option Nat

/-- Result of a commit attempt: the (possibly unchanged) tree and the
toast shown, if any. -/
structure SaveOutcome where
  tree : List FNode
  toast : Option Toast

/-- `saveModal()`: trim the title, `parseInt` the page, reject with an
error toast when `!title || !page || page < 1 ||
(numPages ? page > numPages : false)`; otherwise commit according to the
modal mode (append root / push child under `modalParentId` / overwrite
title and page of `editingId`), each on a deep copy published as the new
tree. -/
def saveModal (st : EditorState) (formTitle formPage : String)
    (freshId : Nat) : SaveOutcome :=
  let title := jsTrim formTitle
  let reject : SaveOutcome :=
    ⟨st.tree, some ⟨"Please provide a valid title and page number", .error⟩⟩
  match jsParseInt formPage with
  | none => reject
  | some page =>
    if title == "" || page == 0 || page < 1 ||
        (st.numPages != 0 && page > st.numPages) then
      reject
    else
      match st.modalMode with
      | .addRoot =>
        ⟨st.tree ++ [createNode title page freshId],
          some ⟨"Bookmark added", .info⟩⟩
      | .addChild =>
        match st.modalParentId with
        | some pid =>
          let node := createNode title page freshId
          let t :=
            (findAndOperate
              (fun n => some { n with children := n.children ++ [node] })
              pid st.tree).getD st.tree
          ⟨t, some ⟨"Child bookmark added", .info⟩⟩
        | none => ⟨st.tree, none⟩
      | .edit =>
        match st.editingId with
        | some eid =>
          let t :=
            (findAndOperate
              (fun n => some { n with title := title, page := page })
              eid st.tree).getD st.tree
          ⟨t, some ⟨"Bookmark updated", .info⟩⟩
        | none => ⟨st.tree, none⟩

/-- `removeNode(id)`: on a deep copy, first `findIndex` at the root level
and splice there when found, otherwise `findAndOperate` with a splice;
always toasts "Bookmark removed". -/
def removeNode (tree : List FNode) (id : Nat) : List FNode × Toast :=
  let t :=
    match tree.findIdx? (fun n => n.id == id) with
    | some idx => tree.eraseIdx idx
    | none => (findAndOperate (fun _ => none) id tree).getD tree
  (t, ⟨"Bookmark removed", .info⟩)

/-! ## Import of a pre-existing PDF outline -/

/-- One item of the document's native outline, as consumed by
`mapOutline`.  `destPage` is the result of `destToPageNumber(pdf, it.dest)`
— that helper only performs external PDF-engine lookups
(`getDestination`, `getPageIndex`) and yields `null` (`none`) on any
failure — so the model carries the resolved page directly. -/
structure OutlineItem where
  title : Option String
  destPage : Option Int
  items : List OutlineItem

theorem sizeOf_outline_items_lt (it : OutlineItem) :
    sizeOf it.items < sizeOf it := by
  cases it with
  | mk t d i => simp only [OutlineItem.mk.sizeOf_spec]; omega

/-- `page && page >= 1 && page <= totalPages ? page : 1`
(with `page` `null` or `0` falsy). -/
def safePageOf (destPage : Option Int) (totalPages : Int) : Int :=
  match destPage with
  | none => 1
  | some p => if p != 0 && 1 ≤ p && p ≤ totalPages then p else 1

/-- `(it.title || '').trim() || 'Untitled'`. -/
def importTitle (t : Option String) : String :=
  let s := jsTrim (t.getD "")
  if s == "" then "Untitled" else s

/-- `mapOutline(items)`: build one `createNode` per item with the clamped
page and defaulted title, recursing into nested items; fresh ids are
threaded through. -/
def mapOutline (totalPages : Int) : List OutlineItem → Nat → List FNode × Nat
  | [], fresh => ([], fresh)
  | it :: rest, fresh =>
    let node0 := createNode (importTitle it.title)
      (safePageOf it.destPage totalPages) fresh
    let r1 := mapOutline totalPages it.items (fresh + 1)
    let node := { node0 with children := r1.1 }
    let r2 := mapOutline totalPages rest r1.2
    (node :: r2.1, r2.2)
termination_by items => sizeOf items
decreasing_by
  · have := sizeOf_outline_items_lt it
    simp only [List.cons.sizeOf_spec]; omega
  · simp only [List.cons.sizeOf_spec]; omega

/-! ## Traversal helpers used to state the claims -/

/-- Pre-order list of all ids in a forest. -/
def forestIds : List FNode → List Nat
  | [] => []
  | n :: rest => n.id :: (forestIds n.children ++ forestIds rest)
termination_by l => sizeOf l
decreasing_by
  · have := sizeOf_fnode_children_lt n
    simp only [List.cons.sizeOf_spec]; omega
  · simp only [List.cons.sizeOf_spec]; omega

/-- Pre-order list of all nodes in a forest. -/
def forestNodes : List FNode → List FNode
  | [] => []
  | n :: rest => n :: (forestNodes n.children ++ forestNodes rest)
termination_by l => sizeOf l
decreasing_by
  · have := sizeOf_fnode_children_lt n
    simp only [List.cons.sizeOf_spec]; omega
  · simp only [List.cons.sizeOf_spec]; omega

/-- Pre-order first node with a given id (mirrors the search order of
`findAndOperate`). -/
def findNode (id : Nat) : List FNode → Option FNode
  | [] => none
  | n :: rest =>
    if n.id = id then some n
    else
      match findNode id n.children with
      | some m => some m
      | none => findNode id rest
termination_by l => sizeOf l
decreasing_by
  · have := sizeOf_fnode_children_lt n
    simp only [List.cons.sizeOf_spec]; omega
  · simp only [List.cons.sizeOf_spec]; omega

/-- Pre-order list of all items of an imported outline. -/
def allItems : List OutlineItem → List OutlineItem
  | [] => []
  | it :: rest => it :: (allItems it.items ++ allItems rest)
termination_by l => sizeOf l
decreasing_by
  · have := sizeOf_outline_items_lt it
    simp only [List.cons.sizeOf_spec]; omega
  · simp only [List.cons.sizeOf_spec]; omega

/-! ## Serializer lemmas -/

theorem sortBookmarksByPage_eq (nodes : List Bookmark) :
    sortBookmarksByPage nodes =
      (nodes.mergeSort sortLE).map
        (fun n => Bookmark.mk n.title n.page (sortBookmarksByPage n.children)) := by
  rw [sortBookmarksByPage]
  rw [List.attach_map_val (nodes.mergeSort sortLE)
    (fun n => Bookmark.mk n.title n.page (sortBookmarksByPage n.children))]

theorem length_sortBookmarksByPage (nodes : List Bookmark) :
    (sortBookmarksByPage nodes).length = nodes.length := by
  rw [sortBookmarksByPage_eq]
  simp

theorem sortBookmarksByPage_nil : sortBookmarksByPage [] = [] := by
  rw [sortBookmarksByPage_eq]
  simp

theorem sortBookmarksByPage_singleton (b : Bookmark) :
    sortBookmarksByPage [b] =
      [Bookmark.mk b.title b.page (sortBookmarksByPage b.children)] := by
  rw [sortBookmarksByPage_eq]
  simp

theorem mergeSort_pair {α : Type} (a b : α) (le : α → α → Bool) :
    [a, b].mergeSort le = if le a b then [a, b] else [b, a] := by
  rw [List.mergeSort]
  simp [List.cons_merge_cons]

/-- The pre-order flattening of a forest into output lines: one line per
node, then (one level deeper) the lines of its children, then the lines of
the following siblings. -/
def specLines : List Bookmark → Nat → List String
  | [], _ => []
  | b :: rest, depth =>
    bookmarkLine b depth ::
      (specLines b.children (depth + 1) ++ specLines rest depth)
termination_by bs _ => sizeOf bs
decreasing_by
  · have := sizeOf_bookmark_children_lt b
    simp only [List.cons.sizeOf_spec]; omega
  · simp only [List.cons.sizeOf_spec]; omega

/-- Number of nodes in a forest. -/
def countNodes : List Bookmark → Nat
  | [] => 0
  | b :: rest => 1 + countNodes b.children + countNodes rest
termination_by bs => sizeOf bs
decreasing_by
  · have := sizeOf_bookmark_children_lt b
    simp only [List.cons.sizeOf_spec]; omega
  · simp only [List.cons.sizeOf_spec]; omega

theorem buildLines_acc : ∀ (bs : List Bookmark) (d : Nat) (acc : List String),
    buildLines bs d acc = acc ++ specLines bs d
  | [], d, acc => by simp [buildLines, specLines]
  | b :: rest, d, acc => by
    have hc := buildLines_acc b.children (d + 1) (acc ++ [bookmarkLine b d])
    have hr1 := buildLines_acc rest d
      ((acc ++ [bookmarkLine b d]) ++ specLines b.children (d + 1))
    have hr2 := buildLines_acc rest d (acc ++ [bookmarkLine b d])
    by_cases h : b.children.length > 0
    · simp only [buildLines, if_pos h]
      rw [hc, hr1]
      simp [specLines]
    · have hce : b.children = [] := by
        cases hb : b.children with
        | nil => rfl
        | cons x xs => rw [hb] at h; simp at h
      simp only [buildLines, if_neg h]
      rw [hr2]
      simp [specLines, hce]
termination_by bs _ _ => sizeOf bs
decreasing_by
  · have := sizeOf_bookmark_children_lt b
    simp only [List.cons.sizeOf_spec]; omega
  · simp only [List.cons.sizeOf_spec]; omega
  · simp only [List.cons.sizeOf_spec]; omega

theorem buildPrintedOutline_eq_specLines (bs : List Bookmark) (d : Nat) :
    buildPrintedOutline bs d = joinLines (specLines bs d) := by
  rw [buildPrintedOutline, buildLines_acc]
  simp

theorem specLines_length : ∀ (bs : List Bookmark) (d : Nat),
    (specLines bs d).length = countNodes bs
  | [], _ => by simp [specLines, countNodes]
  | b :: rest, d => by
    simp only [specLines, countNodes, List.length_cons, List.length_append]
    rw [specLines_length b.children (d + 1), specLines_length rest d]
    omega
termination_by bs _ => sizeOf bs
decreasing_by
  · have := sizeOf_bookmark_children_lt b
    simp only [List.cons.sizeOf_spec]; omega
  · simp only [List.cons.sizeOf_spec]; omega

theorem bookmarkLine_length_pos (b : Bookmark) (d : Nat) :
    0 < (bookmarkLine b d).length := by
  rw [bookmarkLine]
  simp only [String.length_append]
  have h1 : ("|" : String).length = 1 := rfl
  omega

theorem joinLines_cons_ne_empty (l : String) (ls : List String)
    (h : 0 < l.length) : joinLines (l :: ls) ≠ "" := by
  cases ls with
  | nil =>
    intro he
    rw [joinLines] at he
    rw [he] at h
    simp at h
  | cons l2 ls2 =>
    intro he
    rw [joinLines] at he
    have : (l ++ "\n" ++ joinLines (l2 :: ls2)).length = 0 := by
      rw [he]; rfl
    simp [String.length_append] at this
    omega

theorem processPrintedOutline_cons (b : Bookmark) (rest : List Bookmark) :
    processPrintedOutline (some (b :: rest)) =
      buildPrintedOutline (sortBookmarksByPage (b :: rest)) := by
  have hl : 0 < (sortBookmarksByPage (b :: rest)).length := by
    rw [length_sortBookmarksByPage]; simp
  simp only [processPrintedOutline]
  rw [if_pos hl]

theorem buildPrintedOutline_cons_ne (n : Bookmark) (rest : List Bookmark) :
    buildPrintedOutline (n :: rest) ≠ "" := by
  rw [buildPrintedOutline_eq_specLines]
  simp only [specLines]
  exact joinLines_cons_ne_empty _ _ (bookmarkLine_length_pos n 0)

/-! ## Claims about the serializer -/

/-- Claim C2: after sibling sorting, the serializer traverses the forest in
pre-order (node, then its children, then the next sibling) and emits
exactly one line per node of the form `<page>|<dashes>|<title>` — the dash
run has length equal to the node's depth (empty at depth `0`) and every
newline in the title is replaced by a space — and the lines are joined
with `"\n"`; the root/child/grandchild example serializes to exactly
`"1||Root\n2|-|Child\n3|--|Grandchild"`. -/
theorem C2_preorder_one_line_per_node :
    (∀ (bs : List Bookmark) (d : Nat),
        buildPrintedOutline bs d = joinLines (specLines bs d))
  ∧ (∀ (bs : List Bookmark) (d : Nat), (specLines bs d).length = countNodes bs)
  ∧ (∀ (b : Bookmark) (d : Nat),
        bookmarkLine b d = toString (emitPage b.page) ++ "|" ++
          String.mk (List.replicate d '-') ++ "|" ++ replaceNewlines b.title)
  ∧ processPrintedOutline (some
      [⟨"Root", .num 1, [⟨"Child", .num 2, [⟨"Grandchild", .num 3, []⟩]⟩]⟩])
      = "1||Root\n2|-|Child\n3|--|Grandchild" := by
  refine ⟨buildPrintedOutline_eq_specLines, specLines_length, ?_, ?_⟩
  · intro b d
    rfl
  · rw [processPrintedOutline]
    simp only [sortBookmarksByPage_singleton, sortBookmarksByPage_nil]
    simp only [List.length_cons, List.length_nil]
    rw [if_pos (by omega)]
    rw [buildPrintedOutline_eq_specLines]
    simp only [specLines]
    decide

/-- Claim C3: a page value that is missing or unparseable — one with no
numeric interpretation under either coercion the serializer applies
(`Number` for the sort key, `parseInt` for emission; `undefined` and
strings like `"abc"` are such values) — is given sort key `0` during
sibling sorting but is emitted as page `1` in that node's output line. -/
theorem C3_sort_key_zero_but_emit_one (p : JsPage)
    (hnum : jsToNumber p = none) (hint : jsParseIntPage p = none) :
    sortKey p = 0 ∧ emitPage p = 1 ∧
      ∀ (b : Bookmark) (d : Nat), b.page = p →
        bookmarkLine b d =
          "1|" ++ depthMarkers d ++ "|" ++ replaceNewlines b.title := by
  refine ⟨?_, ?_, ?_⟩
  · rw [sortKey, hnum]
  · rw [emitPage, hint]
  · intro b d hb
    rw [bookmarkLine, hb, emitPage, hint]
    rfl

/-- Witness for C3 at the concrete missing page `undefined` and the
concrete unparseable page `"abc"`. -/
theorem C3_witness :
    (sortKey .undef = 0 ∧ emitPage .undef = 1) ∧
      (sortKey (.str "abc") = 0 ∧ emitPage (.str "abc") = 1) :=
  ⟨⟨(C3_sort_key_zero_but_emit_one .undef rfl rfl).1,
    (C3_sort_key_zero_but_emit_one .undef rfl rfl).2.1⟩,
   ⟨(C3_sort_key_zero_but_emit_one (.str "abc") rfl rfl).1,
    (C3_sort_key_zero_but_emit_one (.str "abc") rfl rfl).2.1⟩⟩

/-- Claim C4: serialization yields the empty string iff the forest is
empty (the `/api/process` route also maps a missing bookmarks array to the
empty sentinel); a forest of one node with an empty title serializes to
`"1||"`, which is distinct from the empty-forest sentinel. -/
theorem C4_empty_string_iff_empty_forest :
    (∀ bs : List Bookmark, processPrintedOutline (some bs) = "" ↔ bs = [])
  ∧ processPrintedOutline none = ""
  ∧ processPrintedOutline (some [⟨"", .num 1, []⟩]) = "1||"
  ∧ ("1||" : String) ≠ "" := by
  refine ⟨?_, rfl, ?_, by decide⟩
  · intro bs
    constructor
    · intro h
      by_contra hne
      obtain ⟨b, rest, rfl⟩ := List.exists_cons_of_ne_nil hne
      rw [processPrintedOutline_cons] at h
      have hsne : sortBookmarksByPage (b :: rest) ≠ [] := by
        intro he
        have := length_sortBookmarksByPage (b :: rest)
        rw [he] at this
        simp at this
      obtain ⟨n, rest2, heq⟩ := List.exists_cons_of_ne_nil hsne
      rw [heq] at h
      exact buildPrintedOutline_cons_ne n rest2 h
    · intro h
      rw [h]
      simp only [processPrintedOutline, sortBookmarksByPage_nil]
      rfl
  · rw [processPrintedOutline]
    simp only [sortBookmarksByPage_singleton, sortBookmarksByPage_nil]
    simp only [List.length_cons, List.length_nil]
    rw [if_pos (by omega)]
    rw [buildPrintedOutline_eq_specLines]
    simp only [specLines]
    decide

/-- Witness for C4: both directions of the iff at concrete forests. -/
theorem C4_witness :
    processPrintedOutline (some ([] : List Bookmark)) = "" ∧
      processPrintedOutline (some [⟨"T", .num 2, []⟩]) ≠ "" :=
  ⟨(C4_empty_string_iff_empty_forest.1 []).mpr rfl,
   fun h => by
    have := (C4_empty_string_iff_empty_forest.1 [⟨"T", .num 2, []⟩]).mp h
    simp at this⟩

/-! ## Sortedness, stability and idempotence of the sibling sort -/

theorem sortLE_trans : ∀ (a b c : Bookmark),
    sortLE a b → sortLE b c → sortLE a c := by
  intro a b c hab hbc
  simp only [sortLE, decide_eq_true_eq] at *
  exact le_trans hab hbc

theorem sortLE_total : ∀ (a b : Bookmark), sortLE a b || sortLE b a := by
  intro a b
  simp only [sortLE]
  rcases le_total (sortKey a.page) (sortKey b.page) with h | h
  · simp [h]
  · simp [h]

/-- Every level of the forest — the root sequence and, recursively, each
node's children — is weakly sorted by the page sort key. -/
inductive ForestSorted : List Bookmark → Prop where
  | mk (l : List Bookmark)
      (hp : l.Pairwise (fun a b => sortKey a.page ≤ sortKey b.page))
      (hc : ∀ n ∈ l, ForestSorted n.children) : ForestSorted l

theorem pairwise_sortBookmarksByPage (nodes : List Bookmark) :
    (sortBookmarksByPage nodes).Pairwise
      (fun a b => sortKey a.page ≤ sortKey b.page) := by
  rw [sortBookmarksByPage_eq]
  refine List.Pairwise.map _ ?_
    (List.sorted_mergeSort sortLE_trans sortLE_total nodes)
  intro a b hab
  simpa [sortLE] using hab

theorem forestSorted_sortBookmarksByPage :
    ∀ (nodes : List Bookmark), ForestSorted (sortBookmarksByPage nodes)
  | nodes => by
    refine ForestSorted.mk _ (pairwise_sortBookmarksByPage nodes) ?_
    rw [sortBookmarksByPage_eq]
    intro n hn
    obtain ⟨m, hm, rfl⟩ := List.mem_map.mp hn
    exact forestSorted_sortBookmarksByPage m.children
termination_by nodes => sizeOf nodes
decreasing_by
  have h1 : m ∈ nodes := List.mem_mergeSort.mp hm
  have h2 := List.sizeOf_lt_of_mem h1
  have h3 := sizeOf_bookmark_children_lt m
  omega

theorem mergeSort_sortBookmarksByPage (bs : List Bookmark) :
    (sortBookmarksByPage bs).mergeSort sortLE = sortBookmarksByPage bs := by
  apply List.mergeSort_of_sorted
  have h := pairwise_sortBookmarksByPage bs
  refine h.imp ?_
  intro a b hab
  simpa [sortLE] using hab

theorem sortBookmarksByPage_idem_aux :
    ∀ (k : Nat) (bs : List Bookmark), sizeOf bs ≤ k →
      sortBookmarksByPage (sortBookmarksByPage bs) = sortBookmarksByPage bs := by
  intro k
  induction k with
  | zero =>
    intro bs h
    exfalso
    have : 0 < sizeOf bs := by cases bs <;> simp_arith
    omega
  | succ k ih =>
    intro bs hbs
    conv_lhs => rw [sortBookmarksByPage_eq (sortBookmarksByPage bs)]
    rw [mergeSort_sortBookmarksByPage]
    conv_lhs => rw [sortBookmarksByPage_eq bs]
    conv_rhs => rw [sortBookmarksByPage_eq bs]
    rw [List.map_map]
    refine List.map_congr_left ?_
    intro n hn
    have h1 : n ∈ bs := List.mem_mergeSort.mp hn
    have h2 := List.sizeOf_lt_of_mem h1
    have h3 := sizeOf_bookmark_children_lt n
    have hrec := ih n.children (by omega)
    simp only [Function.comp_apply]
    rw [hrec]

theorem sortBookmarksByPage_idem (bs : List Bookmark) :
    sortBookmarksByPage (sortBookmarksByPage bs) = sortBookmarksByPage bs :=
  sortBookmarksByPage_idem_aux (sizeOf bs) bs le_rfl

/-! ## Claims C1 and C9 -/

/-- Claim C1: the serializer sorts the siblings at every level by the
numeric coercion of the page field ascending (`ForestSorted` of the
result), only reorders each level (permutation of the recursively sorted
input), uses `0` as the sort key for a missing or unparseable page, and is
stable — any sublist of siblings already in key order survives, in order,
into the output — so `[{page 5, title B}, {page 5, title A}]` serializes
with `B` before `A`. -/
theorem C1_stable_sort_every_level (nodes : List Bookmark) :
    ForestSorted (sortBookmarksByPage nodes)
  ∧ (sortBookmarksByPage nodes).Perm
      (nodes.map (fun n => Bookmark.mk n.title n.page
        (sortBookmarksByPage n.children)))
  ∧ (∀ c : List Bookmark,
        c.Pairwise (fun a b => sortKey a.page ≤ sortKey b.page) →
        c.Sublist nodes →
        (c.map (fun n => Bookmark.mk n.title n.page
          (sortBookmarksByPage n.children))).Sublist
            (sortBookmarksByPage nodes))
  ∧ sortKey .undef = 0
  ∧ (∀ s, jsStringToNumber s = none → sortKey (.str s) = 0)
  ∧ processPrintedOutline
      (some [⟨"B", .num 5, []⟩, ⟨"A", .num 5, []⟩]) = "5||B\n5||A" := by
  refine ⟨forestSorted_sortBookmarksByPage nodes, ?_, ?_, rfl, ?_, ?_⟩
  · rw [sortBookmarksByPage_eq]
    exact (nodes.mergeSort_perm sortLE).map _
  · intro c hc hsub
    rw [sortBookmarksByPage_eq]
    refine List.Sublist.map _ ?_
    refine List.sublist_mergeSort sortLE_trans sortLE_total ?_ hsub
    refine hc.imp ?_
    intro a b hab
    simpa [sortLE] using hab
  · intro s hs
    simp [sortKey, jsToNumber, hs]
  · have hBA : sortBookmarksByPage [⟨"B", .num 5, []⟩, ⟨"A", .num 5, []⟩]
        = [⟨"B", .num 5, []⟩, ⟨"A", .num 5, []⟩] := by
      rw [sortBookmarksByPage_eq, mergeSort_pair, if_pos (by decide)]
      simp only [List.map_cons, List.map_nil, sortBookmarksByPage_nil]
    rw [processPrintedOutline]
    simp only [hBA, List.length_cons]
    rw [if_pos (by omega)]
    rw [buildPrintedOutline_eq_specLines]
    simp only [specLines]
    decide

/-- Witness for C1: the stability conjunct applied to the tied pair
`[B at page 5, A at page 5]` (trivially in key order, a sublist of
itself), and the key-default conjunct at the unparseable string
`"abc"`. -/
theorem C1_witness :
    (([(⟨"B", .num 5, []⟩ : Bookmark), ⟨"A", .num 5, []⟩]).map
      (fun n => Bookmark.mk n.title n.page
        (sortBookmarksByPage n.children))).Sublist
      (sortBookmarksByPage [⟨"B", .num 5, []⟩, ⟨"A", .num 5, []⟩]) ∧
    sortKey (.str "abc") = 0 :=
  ⟨(C1_stable_sort_every_level [⟨"B", .num 5, []⟩, ⟨"A", .num 5, []⟩]).2.2.1
      [⟨"B", .num 5, []⟩, ⟨"A", .num 5, []⟩]
      (by simp [List.pairwise_cons]) (List.Sublist.refl _),
   (C1_stable_sort_every_level []).2.2.2.2.1 "abc" rfl⟩

/-- Claim C9: serialization is idempotent and mutation-free — the
normalizing pass is idempotent (`sort ∘ sort = sort`, so running the
serializer on the forest it would have produced changes nothing), and in
particular serializing twice yields identical output; the embedding is a
pure function of the input forest, mirroring the source's copy-on-write
`slice()`/spread discipline. -/
theorem C9_serialization_idempotent :
    (∀ bs : List Bookmark,
        sortBookmarksByPage (sortBookmarksByPage bs) = sortBookmarksByPage bs)
  ∧ (∀ bs : List Bookmark,
        buildPrintedOutline (sortBookmarksByPage (sortBookmarksByPage bs)) =
          buildPrintedOutline (sortBookmarksByPage bs))
  ∧ (∀ bs : List Bookmark,
        processPrintedOutline (some (sortBookmarksByPage bs)) =
          processPrintedOutline (some bs)) := by
  refine ⟨sortBookmarksByPage_idem, ?_, ?_⟩
  · intro bs
    rw [sortBookmarksByPage_idem]
  · intro bs
    simp only [processPrintedOutline, sortBookmarksByPage_idem]

/-! ## Frontend store lemmas -/

theorem findAndOperate_eq_none (op : FNode → Option FNode) (id : Nat) :
    ∀ (tree : List FNode), id ∉ forestIds tree →
      findAndOperate op id tree = none
  | [], _ => by simp [findAndOperate]
  | n :: rest, h => by
    simp only [forestIds, List.mem_cons, List.mem_append, not_or] at h
    obtain ⟨h1, h2, h3⟩ := h
    simp only [findAndOperate]
    rw [if_neg (fun he => h1 he.symm)]
    rw [findAndOperate_eq_none op id n.children h2,
      findAndOperate_eq_none op id rest h3]
termination_by tree => sizeOf tree
decreasing_by
  · have := sizeOf_fnode_children_lt n
    simp only [List.cons.sizeOf_spec]; omega
  · simp only [List.cons.sizeOf_spec]; omega

theorem id_mem_forestIds_of_mem :
    ∀ {tree : List FNode} {n : FNode}, n ∈ tree → n.id ∈ forestIds tree
  | t :: rest, n, h => by
    simp only [forestIds, List.mem_cons, List.mem_append]
    cases h with
    | head => exact Or.inl rfl
    | tail _ h2 => exact Or.inr (Or.inr (id_mem_forestIds_of_mem h2))

theorem removeNode_missing (tree : List FNode) (id : Nat)
    (h : id ∉ forestIds tree) : (removeNode tree id).1 = tree := by
  have hfi : tree.findIdx? (fun n => n.id == id) = none := by
    rw [List.findIdx?_eq_none_iff]
    intro x hx
    simp only [beq_eq_false_iff_ne, ne_eq]
    intro he
    exact h (he ▸ id_mem_forestIds_of_mem hx)
  simp only [removeNode, hfi, findAndOperate_eq_none _ _ _ h]
  rfl

/-! ## Claims about commit validation and lookup misses -/

/-- Claim C5: a commit of an add or edit whose title is empty after
trimming, or whose page does not parse to a positive integer, or whose
page exceeds the document's known total page count (`numPages ≠ 0`
modelling a loaded document), is rejected with an error report and the
forest is left exactly unchanged. -/
theorem C5_invalid_commit_rejected (st : EditorState)
    (formTitle formPage : String) (freshId : Nat)
    (h : jsTrim formTitle = "" ∨ jsParseInt formPage = none ∨
      (∃ p, jsParseInt formPage = some p ∧ p < 1) ∨
      (∃ p, jsParseInt formPage = some p ∧ st.numPages ≠ 0 ∧
        st.numPages < p)) :
    saveModal st formTitle formPage freshId =
      ⟨st.tree, some ⟨"Please provide a valid title and page number",
        .error⟩⟩ := by
  simp only [saveModal.eq_def]
  cases hp : jsParseInt formPage with
  | none => rfl
  | some p =>
    dsimp only
    split
    · rfl
    · rename_i hcond
      exfalso
      simp only [Bool.or_eq_true, beq_iff_eq, bne_iff_ne, ne_eq,
        Bool.and_eq_true, decide_eq_true_eq, not_or, not_and, not_lt] at hcond
      obtain ⟨⟨⟨ht, hz⟩, hlt⟩, hbound⟩ := hcond
      rcases h with h | h | ⟨q, hq, hql⟩ | ⟨q, hq, hne, hgt⟩
      · exact ht h
      · rw [hp] at h; exact Option.noConfusion h
      · rw [hp] at hq
        injection hq with hq
        subst hq
        omega
      · rw [hp] at hq
        injection hq with hq
        subst hq
        have := hbound hne
        omega

/-- Witness for C5: an all-whitespace title, an unparseable page, and a
page beyond the known bound are each rejected and leave the tree as it
was. -/
theorem C5_witness :
    saveModal ⟨[], 0, .addRoot, none, none⟩ "  " "3" 7 =
      ⟨[], some ⟨"Please provide a valid title and page number", .error⟩⟩ ∧
    saveModal ⟨[], 0, .addRoot, none, none⟩ "T" "abc" 7 =
      ⟨[], some ⟨"Please provide a valid title and page number", .error⟩⟩ ∧
    saveModal ⟨[], 5, .addRoot, none, none⟩ "T" "9" 7 =
      ⟨[], some ⟨"Please provide a valid title and page number", .error⟩⟩ :=
  ⟨C5_invalid_commit_rejected _ _ _ _ (Or.inl rfl),
   C5_invalid_commit_rejected _ _ _ _ (Or.inr (Or.inl rfl)),
   C5_invalid_commit_rejected _ _ _ _
     (Or.inr (Or.inr (Or.inr ⟨9, rfl, by decide, by decide⟩)))⟩

/-- Counterexample to claim C6 as stated: the claim requires a lookup miss
to "report a failure to the caller", but removing an id absent from the
forest reports the ordinary success toast ("Bookmark removed", severity
`info`), not an error-severity failure report — while indeed leaving the
forest unchanged. -/
theorem C6_counterexample :
    (removeNode [⟨1, "A", 1, []⟩] 2).1 = [⟨1, "A", 1, []⟩] ∧
    (removeNode [⟨1, "A", 1, []⟩] 2).2 = ⟨"Bookmark removed", .info⟩ ∧
    ¬ (removeNode [⟨1, "A", 1, []⟩] 2).2.kind = .error := by
  have h2 : (2 : Nat) ∉ forestIds [⟨1, "A", 1, []⟩] := by
    simp [forestIds]
  exact ⟨removeNode_missing _ _ h2, rfl, by decide⟩

/-- Claim C6 (amended): for an id absent from the forest, committing an
add-child under it, committing an edit of it, and removing it all leave
the forest exactly unchanged — a lookup miss never corrupts the forest —
but the caller is shown the ordinary success message (or the generic
validation error for invalid form input), never a not-found failure
report. -/
theorem C6_missing_id_is_noop (tree : List FNode) (id : Nat)
    (h : id ∉ forestIds tree) :
    (∀ (numPages : Int) (eid : Option Nat) (ft fp : String) (fid : Nat),
        (saveModal ⟨tree, numPages, .addChild, some id, eid⟩ ft fp fid).tree
          = tree)
  ∧ (∀ (numPages : Int) (eid : Option Nat) (ft fp : String) (fid : Nat),
        (saveModal ⟨tree, numPages, .addChild, some id, eid⟩ ft fp fid).toast
            = some ⟨"Child bookmark added", .info⟩ ∨
        (saveModal ⟨tree, numPages, .addChild, some id, eid⟩ ft fp fid).toast
            = some ⟨"Please provide a valid title and page number", .error⟩)
  ∧ (∀ (numPages : Int) (pid : Option Nat) (ft fp : String) (fid : Nat),
        (saveModal ⟨tree, numPages, .edit, pid, some id⟩ ft fp fid).tree
          = tree)
  ∧ (∀ (numPages : Int) (pid : Option Nat) (ft fp : String) (fid : Nat),
        (saveModal ⟨tree, numPages, .edit, pid, some id⟩ ft fp fid).toast
            = some ⟨"Bookmark updated", .info⟩ ∨
        (saveModal ⟨tree, numPages, .edit, pid, some id⟩ ft fp fid).toast
            = some ⟨"Please provide a valid title and page number", .error⟩)
  ∧ (removeNode tree id).1 = tree
  ∧ (removeNode tree id).2 = ⟨"Bookmark removed", .info⟩ := by
  refine ⟨?_, ?_, ?_, ?_, removeNode_missing tree id h, rfl⟩
  · intro numPages eid ft fp fid
    simp only [saveModal.eq_def]
    cases hp : jsParseInt fp with
    | none => rfl
    | some p =>
      dsimp only
      split
      · rfl
      · simp only [findAndOperate_eq_none _ _ _ h, Option.getD_none]
  · intro numPages eid ft fp fid
    simp only [saveModal.eq_def]
    cases hp : jsParseInt fp with
    | none => exact Or.inr rfl
    | some p =>
      dsimp only
      split
      · exact Or.inr rfl
      · exact Or.inl rfl
  · intro numPages pid ft fp fid
    simp only [saveModal.eq_def]
    cases hp : jsParseInt fp with
    | none => rfl
    | some p =>
      dsimp only
      split
      · rfl
      · simp only [findAndOperate_eq_none _ _ _ h, Option.getD_none]
  · intro numPages pid ft fp fid
    simp only [saveModal.eq_def]
    cases hp : jsParseInt fp with
    | none => exact Or.inr rfl
    | some p =>
      dsimp only
      split
      · exact Or.inr rfl
      · exact Or.inl rfl

/-- Witness for C6 (amended) at a concrete forest and missing id. -/
theorem C6_witness :
    (removeNode [⟨1, "A", 1, []⟩] 5).1 = [⟨1, "A", 1, []⟩] ∧
    (saveModal ⟨[⟨1, "A", 1, []⟩], 0, .edit, none, some 5⟩ "T" "2" 9).tree
      = [⟨1, "A", 1, []⟩] :=
  have h5 : (5 : Nat) ∉ forestIds [⟨1, "A", 1, []⟩] := by simp [forestIds]
  ⟨(C6_missing_id_is_noop [⟨1, "A", 1, []⟩] 5 h5).2.2.2.2.1,
   (C6_missing_id_is_noop [⟨1, "A", 1, []⟩] 5 h5).2.2.1 0 none "T" "2" 9⟩

/-- Claim C10: commit validation runs the page input through
`parseInt(formPage, 10)`, which parses the longest leading digit run, so
an input whose leading characters parse to a positive integer is accepted
even when the whole string is not an integer numeral, and the committed
node's page is that truncated integer: `"3.9"` and `"3abc"` both commit
page `3`. -/
theorem C10_prefix_parse_accepted :
    (∀ (st : EditorState) (ft fp : String) (fid : Nat) (p : Int),
        st.modalMode = .addRoot →
        jsParseInt fp = some p → 1 ≤ p → jsTrim ft ≠ "" →
        (st.numPages = 0 ∨ p ≤ st.numPages) →
        saveModal st ft fp fid =
          ⟨st.tree ++ [createNode (jsTrim ft) p fid],
            some ⟨"Bookmark added", .info⟩⟩)
  ∧ jsParseInt "3.9" = some 3
  ∧ jsParseInt "3abc" = some 3
  ∧ saveModal ⟨[], 10, .addRoot, none, none⟩ "Ch" "3.9" 0 =
      ⟨[createNode "Ch" 3 0], some ⟨"Bookmark added", .info⟩⟩
  ∧ saveModal ⟨[], 10, .addRoot, none, none⟩ "Ch" "3abc" 0 =
      ⟨[createNode "Ch" 3 0], some ⟨"Bookmark added", .info⟩⟩ := by
  refine ⟨?_, rfl, rfl, rfl, rfl⟩
  intro st ft fp fid p hmode hp hpos htitle hbound
  simp only [saveModal.eq_def, hp]
  split
  · rename_i hcond
    exfalso
    simp only [Bool.or_eq_true, beq_iff_eq, bne_iff_ne, ne_eq,
      Bool.and_eq_true, decide_eq_true_eq] at hcond
    rcases hcond with ((ht | hz) | hlt) | ⟨hne, hgt⟩
    · exact htitle ht
    · omega
    · omega
    · rcases hbound with hb | hb
      · exact hne hb
      · omega
  · rw [hmode]

/-- Witness for C10: the general acceptance theorem applied at the
concrete input `"3.9"`. -/
theorem C10_witness :
    saveModal ⟨[], 10, .addRoot, none, none⟩ "Ch" "3.9" 0 =
      ⟨[createNode "Ch" 3 0], some ⟨"Bookmark added", .info⟩⟩ :=
  C10_prefix_parse_accepted.1 ⟨[], 10, .addRoot, none, none⟩ "Ch" "3.9" 0 3
    rfl rfl (by decide) (by decide) (Or.inr (by decide))

/-! ## Removal lemmas -/

theorem findAndOperate_eq_none_of_findNode (op : FNode → Option FNode) (id : Nat) :
    ∀ (l : List FNode), findNode id l = none → findAndOperate op id l = none
  | [], _ => by simp [findAndOperate]
  | n :: rest, h => by
    simp only [findNode] at h
    simp only [findAndOperate]
    by_cases h1 : n.id = id
    · rw [if_pos h1] at h
      exact absurd h (by simp)
    · rw [if_neg h1] at h
      rw [if_neg h1]
      cases hfc : findNode id n.children with
      | some m => rw [hfc] at h; exact absurd h (by simp)
      | none =>
        simp only [hfc] at h
        rw [findAndOperate_eq_none_of_findNode op id n.children hfc,
          findAndOperate_eq_none_of_findNode op id rest h]
termination_by l => sizeOf l
decreasing_by
  all_goals
    have := sizeOf_fnode_children_lt n
    simp only [List.cons.sizeOf_spec]
    omega

/-- Removing the first pre-order match detaches exactly that node together
with its whole subtree: the surviving ids plus the removed subtree's ids
are a permutation of the original ids. -/
theorem findAndOperate_remove_perm (id : Nat) :
    ∀ (tree : List FNode) (n : FNode), findNode id tree = some n →
    ∃ t2, findAndOperate (fun _ => none) id tree = some t2 ∧
      (forestIds t2 ++ (n.id :: forestIds n.children)).Perm (forestIds tree)
  | [], n, h => by simp [findNode] at h
  | t :: rest, n, h => by
    simp only [findNode] at h
    simp only [findAndOperate]
    by_cases h1 : t.id = id
    · rw [if_pos h1] at h
      rw [if_pos h1]
      injection h with h2
      subst h2
      refine ⟨rest, rfl, ?_⟩
      simp only [forestIds]
      have hp : (forestIds rest ++ (t.id :: forestIds t.children)).Perm
          ((t.id :: forestIds t.children) ++ forestIds rest) :=
        List.perm_append_comm
      simpa using hp
    · rw [if_neg h1] at h
      rw [if_neg h1]
      cases hfc : findNode id t.children with
      | some m =>
        rw [hfc] at h
        injection h with h2
        subst h2
        obtain ⟨cs, hcs, hpc⟩ := findAndOperate_remove_perm id t.children m hfc
        rw [hcs]
        refine ⟨{ t with children := cs } :: rest, rfl, ?_⟩
        simp only [forestIds]
        have step : ((forestIds cs ++ forestIds rest) ++
            (m.id :: forestIds m.children)).Perm
            (forestIds t.children ++ forestIds rest) := by
          rw [List.append_assoc]
          refine (List.Perm.append_left _
            (@List.perm_append_comm _ (forestIds rest)
              (m.id :: forestIds m.children))).trans ?_
          rw [← List.append_assoc]
          exact List.Perm.append_right _ hpc
        simpa only [List.cons_append] using List.Perm.cons t.id step
      | none =>
        simp only [hfc] at h
        obtain ⟨t2, ht2, hpr⟩ := findAndOperate_remove_perm id rest n h
        rw [findAndOperate_eq_none_of_findNode _ id t.children hfc, ht2]
        refine ⟨t :: t2, rfl, ?_⟩
        simp only [forestIds]
        have step : ((forestIds t.children ++ forestIds t2) ++
            (n.id :: forestIds n.children)).Perm
            (forestIds t.children ++ forestIds rest) := by
          rw [List.append_assoc]
          exact List.Perm.append_left _ hpr
        simpa only [List.cons_append] using List.Perm.cons t.id step
termination_by tree => sizeOf tree
decreasing_by
  all_goals
    have := sizeOf_fnode_children_lt t
    simp only [List.cons.sizeOf_spec]
    omega

/-- When the target id sits at the root level (as found by `findIdx?`) and
ids are unique, the generic pre-order removal agrees with the root-level
splice that `removeNode` performs. -/
theorem findAndOperate_remove_root :
    ∀ (tree : List FNode) (id : Nat) (idx : Nat),
    (forestIds tree).Nodup →
    tree.findIdx? (fun n => n.id == id) = some idx →
    findAndOperate (fun _ => none) id tree = some (tree.eraseIdx idx)
  | [], id, idx, _, hfi => by simp at hfi
  | t :: rest, id, idx, hnd, hfi => by
    rw [List.findIdx?_cons] at hfi
    simp only [forestIds, List.nodup_cons, List.nodup_append] at hnd
    obtain ⟨hnotin, hc, hr, hdisj⟩ := hnd
    by_cases h1 : t.id = id
    · rw [if_pos (by simp [h1])] at hfi
      injection hfi with hfi
      subst hfi
      simp only [findAndOperate]
      rw [if_pos h1]
      rfl
    · rw [if_neg (by simp [h1])] at hfi
      rw [List.findIdx?_start_succ] at hfi
      rw [Option.map_eq_some'] at hfi
      obtain ⟨j, hj, hidx⟩ := hfi
      subst hidx
      have hmem : id ∈ forestIds rest := by
        have hw := List.findIdx?_of_eq_some hj
        cases hg : rest[j]? with
        | none => rw [hg] at hw; simp at hw
        | some a =>
          rw [hg] at hw
          simp only [beq_iff_eq] at hw
          have ha : a ∈ rest := List.getElem?_mem hg
          exact hw ▸ id_mem_forestIds_of_mem ha
      have hnc : id ∉ forestIds t.children := fun hin => hdisj hin hmem
      simp only [findAndOperate]
      rw [if_neg h1]
      rw [findAndOperate_eq_none _ _ _ hnc]
      rw [findAndOperate_remove_root rest id j hr hj]
      rw [List.eraseIdx_cons_succ]

theorem removeNode_fst_eq (tree : List FNode) (id : Nat)
    (hnd : (forestIds tree).Nodup) :
    (removeNode tree id).1 =
      (findAndOperate (fun _ => none) id tree).getD tree := by
  cases hfi : tree.findIdx? (fun n => n.id == id) with
  | none => simp only [removeNode, hfi]
  | some idx =>
    simp only [removeNode, hfi]
    rw [findAndOperate_remove_root tree id idx hnd hfi]
    rfl

/-- Claim C7: for an id present in a forest with unique ids, `remove`
detaches that node together with its entire subtree — the surviving ids
plus the removed subtree's ids are a permutation of the original ids and
no id of the removed subtree (in particular no descendant) survives or is
promoted — and removal behaves identically for root-level and nested
nodes: for `A(children: B, C)`, removing `B` yields `A(children: C)` and
removing `A` yields the empty forest. -/
theorem C7_remove_detaches_entire_subtree (tree : List FNode) (id : Nat)
    (n : FNode) (hnd : (forestIds tree).Nodup)
    (hfind : findNode id tree = some n) :
    ((forestIds ((removeNode tree id).1)) ++
        (n.id :: forestIds n.children)).Perm (forestIds tree)
  ∧ (∀ j ∈ n.id :: forestIds n.children,
        j ∉ forestIds ((removeNode tree id).1))
  ∧ (removeNode [⟨1, "A", 1, [⟨2, "B", 2, []⟩, ⟨3, "C", 3, []⟩]⟩] 2).1
      = [⟨1, "A", 1, [⟨3, "C", 3, []⟩]⟩]
  ∧ (removeNode [⟨1, "A", 1, [⟨2, "B", 2, []⟩, ⟨3, "C", 3, []⟩]⟩] 1).1 = []
    := by
  obtain ⟨t2, heq, hperm⟩ := findAndOperate_remove_perm id tree n hfind
  have hr : (removeNode tree id).1 = t2 := by
    rw [removeNode_fst_eq tree id hnd, heq]
    rfl
  refine ⟨?_, ?_, ?_, rfl⟩
  · rw [hr]; exact hperm
  · rw [hr]
    intro j hj hj2
    have hnd2 : (forestIds t2 ++ (n.id :: forestIds n.children)).Nodup :=
      (hperm.nodup_iff).mpr hnd
    rw [List.nodup_append] at hnd2
    exact hnd2.2.2 hj2 hj
  · simp only [removeNode, findAndOperate]
    norm_num

/-- Witness for C7: removing the nested node `B` (id 2) from
`A(children: B, C)`; the surviving ids together with `B`'s subtree ids
permute to the original id list. -/
theorem C7_witness :
    ((forestIds ((removeNode
        [⟨1, "A", 1, [⟨2, "B", 2, []⟩, ⟨3, "C", 3, []⟩]⟩] 2).1)) ++
      ((2 : Nat) :: forestIds ([] : List FNode))).Perm
      (forestIds [⟨1, "A", 1, [⟨2, "B", 2, []⟩, ⟨3, "C", 3, []⟩]⟩]) :=
  (C7_remove_detaches_entire_subtree
    [⟨1, "A", 1, [⟨2, "B", 2, []⟩, ⟨3, "C", 3, []⟩]⟩] 2 ⟨2, "B", 2, []⟩
    (by simp [forestIds])
    (by simp [findNode])).1

/-! ## Import claims -/

theorem mapOutline_node_from_item (tp : Int) :
    ∀ (items : List OutlineItem) (fresh : Nat) (n : FNode),
    n ∈ forestNodes (mapOutline tp items fresh).1 →
    ∃ it, it ∈ allItems items ∧ n.page = safePageOf it.destPage tp ∧
      n.title = importTitle it.title
  | [], fresh, n, h => by simp [mapOutline, forestNodes] at h
  | it :: rest, fresh, n, h => by
    simp only [mapOutline] at h
    simp only [forestNodes, List.mem_cons, List.mem_append] at h
    rcases h with h | h | h
    · subst h
      exact ⟨it, by simp [allItems], rfl, rfl⟩
    · obtain ⟨it2, hit2, hp, ht⟩ :=
        mapOutline_node_from_item tp it.items (fresh + 1) n h
      refine ⟨it2, ?_, hp, ht⟩
      simp only [allItems, List.mem_cons, List.mem_append]
      exact Or.inr (Or.inl hit2)
    · obtain ⟨it2, hit2, hp, ht⟩ :=
        mapOutline_node_from_item tp rest
          (mapOutline tp it.items (fresh + 1)).2 n h
      refine ⟨it2, ?_, hp, ht⟩
      simp only [allItems, List.mem_cons, List.mem_append]
      exact Or.inr (Or.inr hit2)
termination_by items => sizeOf items
decreasing_by
  all_goals
    have := sizeOf_outline_items_lt it
    simp only [List.cons.sizeOf_spec]
    omega

/-- Claim C8: every imported node, at any nesting depth, gets its page and
title from the clamping rules of `mapOutline`: an unresolved destination
imports with page `1`, a resolved page outside `[1, numPages]` imports
with page `1`, and a title that is empty or whitespace after trimming
imports as "Untitled". -/
theorem C8_import_page_clamp_and_title_default :
    (∀ tp : Int, safePageOf none tp = 1)
  ∧ (∀ tp p : Int, p < 1 ∨ tp < p → safePageOf (some p) tp = 1)
  ∧ (∀ t : Option String, jsTrim (t.getD "") = "" →
      importTitle t = "Untitled")
  ∧ (∀ (tp : Int) (items : List OutlineItem) (fresh : Nat) (n : FNode),
      n ∈ forestNodes (mapOutline tp items fresh).1 →
      ∃ it, it ∈ allItems items ∧ n.page = safePageOf it.destPage tp ∧
        n.title = importTitle it.title) := by
  refine ⟨fun tp => rfl, ?_, ?_, fun tp => mapOutline_node_from_item tp⟩
  · intro tp p h
    simp only [safePageOf]
    rw [if_neg]
    intro hcond
    simp only [Bool.and_eq_true, bne_iff_ne, ne_eq,
      decide_eq_true_eq] at hcond
    omega
  · intro t ht
    simp only [importTitle]
    rw [ht]
    rfl

/-- Witness for C8: a page beyond the bound, page `0`, a whitespace title,
and a concrete one-item import with an unresolved destination. -/
theorem C8_witness :
    safePageOf (some 9) 5 = 1 ∧
    safePageOf (some 0) 5 = 1 ∧
    importTitle (some "   ") = "Untitled" ∧
    (∃ it, it ∈ allItems [⟨none, none, []⟩] ∧
      (createNode "Untitled" 1 0).page = safePageOf it.destPage 5 ∧
      (createNode "Untitled" 1 0).title = importTitle it.title) :=
  ⟨C8_import_page_clamp_and_title_default.2.1 5 9 (Or.inr (by decide)),
   C8_import_page_clamp_and_title_default.2.1 5 0 (Or.inl (by decide)),
   C8_import_page_clamp_and_title_default.2.2.1 (some "   ") rfl,
   C8_import_page_clamp_and_title_default.2.2.2 5 [⟨none, none, []⟩] 0
     (createNode "Untitled" 1 0)
     (by simp [mapOutline, forestNodes, importTitle, safePageOf, jsTrim,
       createNode])⟩

end BookmarkPdf
